import Mathlib

/-!
Shallow embedding of the scoring engine of the anonify repository
(file src/anonify/analysis/scoring.py, class AnonymizationScorer).

A column is a list of optional cells: `none` models a missing value (NaN),
numbers are exact rationals.  The two metrics whose Python value ends in a
square root (cramers_v and mean_shift_distance) are tracked through their
squares (cramersVSq, meanShiftSq): the float the Python function returns is
the real square root of the rational these definitions compute, because the
final clamp max(0, min(1, v)) commutes with the square root on nonnegative
arguments.  Theorems about those two metrics state the returned value as
Real.sqrt of the rational core.
-/

namespace Anonify

/-- Model of Series.dropna(): discard the missing cells of a column. -/
def dropna {α : Type} (xs : List (Option α)) : List α := xs.filterMap id

/-- Model of Series.mean() on a cleaned column. -/
def meanQ (l : List ℚ) : ℚ := l.sum / l.length

/-- Square of pandas Series.std() (ddof = 1): the sample variance.
Only evaluated on columns of length at least 2 (a single observation gives
NaN in pandas; the caller mean_shift_distance handles that case first). -/
def varQ (l : List ℚ) : ℚ := (l.map (fun a => (a - meanQ l) ^ 2)).sum / ((l.length : ℚ) - 1)

/-- Model of Series.max() on a nonempty cleaned column. -/
def maxQ : List ℚ → ℚ
  | [] => 0
  | a :: t => t.foldl max a

/-- Model of Series.min() on a nonempty cleaned column. -/
def minQ : List ℚ → ℚ
  | [] => 0
  | a :: t => t.foldl min a

/-- Empirical CDF of a sample, evaluated with weak inequality: the fraction
of the sample that is at most t (scipy searchsorted side "right" divided by
the sample size). -/
def ecdfQ (u : List ℚ) (t : ℚ) : ℚ := (u.countP (fun a => decide (a ≤ t)) : ℚ) / u.length

/-- AnonymizationScorer.jaccard_distance: Jaccard distance between the sets
of distinct non-missing values of the two columns.  Sets are modelled as
deduplicated lists; the sizes of the intersection and of the union are
computed by counting. -/
def jaccard_distance {α : Type} [DecidableEq α] (x y : List (Option α)) : ℚ :=
  let set_x := (dropna x).dedup
  let set_y := (dropna y).dedup
  if set_x = [] ∧ set_y = [] then 0
  else
    let intersection := set_x.countP (fun a => decide (a ∈ set_y))
    let union := set_x.length + set_y.countP (fun a => decide (a ∉ set_x))
    if union > 0 then 1 - (intersection : ℚ) / (union : ℚ) else 1

/-- The three column kinds recognised by the classifier ('categorical',
'numerical', 'text' in the Python source). -/
inductive ColumnType where
  | categorical
  | numerical
  | text
deriving DecidableEq, Repr

/-- AnonymizationScorer.detect_column_type.  The numeric-coercion attempt
pd.to_numeric(series_clean) succeeds exactly when every non-missing cell
parses as a number; which cells do is abstracted into the parameter
parsesNum (for concrete string columns it is instantiated with
isNumericString below). -/
def detect_column_type {α : Type} [DecidableEq α] (parsesNum : α → Bool)
    (series : List (Option α)) : ColumnType :=
  let series_clean := dropna series
  if series_clean = [] then ColumnType.categorical
  else if series_clean.all parsesNum then ColumnType.numerical
  else
    let unique_frac : ℚ := (series_clean.dedup.length : ℚ) / series_clean.length
    if unique_frac < 1 / 2 then ColumnType.categorical else ColumnType.text

/-- The classifier as worded by the specification (section 4.1): drop the
missing values; empty remainder gives Categorical; if every remaining value
parses as a number give Numerical; otherwise Categorical when the ratio of
distinct to total values is strictly below one half, else Text.  Written
from the specification text, to be compared with detect_column_type. -/
def classifySpec {α : Type} [DecidableEq α] (parsesNum : α → Bool)
    (series : List (Option α)) : ColumnType :=
  let vals := dropna series
  if vals.isEmpty then ColumnType.categorical
  else if vals.all parsesNum then ColumnType.numerical
  else if ((vals.dedup.length : ℚ) / (vals.length : ℚ) < 1 / 2) then ColumnType.categorical
  else ColumnType.text

/-- Acceptance of a string cell by pd.to_numeric, modelled as an optional
sign, then digits with an optional decimal point, then an optional exponent.
No claim depends on exactly which strings are numeric, only on the
classifier being a function of such a predicate. -/
def isNumericString (s : String) : Bool :=
  let body := match s.toList with
    | c :: t => if c = '+' ∨ c = '-' then t else c :: t
    | [] => []
  let ds := body.takeWhile Char.isDigit
  let rest := body.drop ds.length
  let intOk := !ds.isEmpty
  let afterDot := match rest with
    | '.' :: t =>
        let fs := t.takeWhile Char.isDigit
        some (intOk || !fs.isEmpty, t.drop fs.length)
    | _ => some (intOk, rest)
  match afterDot with
  | none => false
  | some (mantOk, tail) =>
    match tail with
    | [] => mantOk
    | 'e' :: t =>
        let t2 := match t with
          | c :: u => if c = '+' ∨ c = '-' then u else c :: u
          | [] => []
        let es := t2.takeWhile Char.isDigit
        mantOk && !es.isEmpty && (t2.drop es.length).isEmpty
    | 'E' :: t =>
        let t2 := match t with
          | c :: u => if c = '+' ∨ c = '-' then u else c :: u
          | [] => []
        let es := t2.takeWhile Char.isDigit
        mantOk && !es.isEmpty && (t2.drop es.length).isEmpty
    | _ => false

/-- The raw first-order Wasserstein distance of scipy.stats between two
nonempty samples: the integral of the absolute difference of the two
empirical CDFs, computed as a sum over the consecutive gaps of the sorted
pooled sample. -/
def wassersteinRaw (u v : List ℚ) : ℚ :=
  let allValues := (u ++ v).insertionSort (· ≤ ·)
  ((allValues.zip allValues.tail).map
    (fun p => |ecdfQ u p.1 - ecdfQ v p.1| * (p.2 - p.1))).sum

/-- AnonymizationScorer.wasserstein_distance_normalized: the raw Wasserstein
distance of the cleaned columns, normalised by the value range of the
original column and capped at 1.  The ℚ-valued cells make the
astype(float) coercion the identity, so its except branch (returning 1.0)
is unreachable here. -/
def wasserstein_distance_normalized (x y : List (Option ℚ)) : ℚ :=
  let x_clean := dropna x
  let y_clean := dropna y
  if x_clean = [] ∨ y_clean = [] then 1
  else
    let wd := wassersteinRaw x_clean y_clean
    let x_range := maxQ x_clean - minQ x_clean
    if x_range = 0 then (if wd = 0 then 0 else 1)
    else min 1 (wd / x_range)

/-- AnonymizationScorer.kolmogorov_smirnov_distance: the two-sample
Kolmogorov-Smirnov statistic of scipy.stats.ks_2samp, the largest absolute
difference of the two empirical CDFs over the pooled data points. -/
def kolmogorov_smirnov_distance (x y : List (Option ℚ)) : ℚ :=
  let x_clean := dropna x
  let y_clean := dropna y
  if x_clean = [] ∨ y_clean = [] then 1
  else ((x_clean ++ y_clean).map (fun t => |ecdfQ x_clean t - ecdfQ y_clean t|)).foldl max 0

/-- Square of the value returned by AnonymizationScorer.mean_shift_distance,
namely min(1, |mean x - mean y| / std x) squared, which equals
min(1, (mean x - mean y)^2 / var x).  pandas std with ddof = 1 is NaN on a
single observation and Python min(1.0, nan) evaluates to 1.0, hence the
explicit branch for a singleton cleaned column. -/
def meanShiftSq (x y : List (Option ℚ)) : ℚ :=
  let x_clean := dropna x
  let y_clean := dropna y
  if x_clean = [] ∨ y_clean = [] then 1
  else if x_clean.length = 1 then 1
  else
    let meanDiffSq := (meanQ x_clean - meanQ y_clean) ^ 2
    let xVar := varQ x_clean
    if xVar = 0 then (if meanDiffSq = 0 then 0 else 1)
    else min 1 (meanDiffSq / xVar)

/-- Length of the longest common initial run of two lists (the length of the
matching block of difflib starting at a fixed pair of positions). -/
def commonRun {α : Type} [DecidableEq α] : List α → List α → ℕ
  | a :: as, b :: bs => if a = b then commonRun as bs + 1 else 0
  | _, _ => 0

/-- Model of difflib SequenceMatcher find_longest_match on whole sequences
(no junk: the autojunk popularity heuristic only fires on sequences of
length at least 200 and only shrinks the match, which no claim depends on).
Returns (i, j, k): the longest block with a[i:i+k] = b[j:j+k], ties broken
towards the earliest i, then the earliest j, exactly as the stated contract
of the Python function. -/
def bestBlock {α : Type} [DecidableEq α] (a b : List α) : ℕ × ℕ × ℕ :=
  (List.range a.length).foldl (fun best i =>
    (List.range b.length).foldl (fun best j =>
      let k := commonRun (a.drop i) (b.drop j)
      if k > best.2.2 then (i, j, k) else best) best) (0, 0, 0)

/-- Total size of the matching blocks of difflib get_matching_blocks: take
the longest match, then recurse on the material to its left and to its
right.  The fuel argument only bounds the recursion depth; the top-level
call passes a.length + 1, which is more than the depth the recursion can
reach since every recursive call strictly shrinks the first list. -/
def matchTotal {α : Type} [DecidableEq α] : ℕ → List α → List α → ℕ
  | 0, _, _ => 0
  | fuel + 1, a, b =>
    let ijk := bestBlock a b
    let i := ijk.1
    let j := ijk.2.1
    let k := ijk.2.2
    if k = 0 then 0
    else k + matchTotal fuel (a.take i) (b.take j)
           + matchTotal fuel (a.drop (i + k)) (b.drop (j + k))

/-- difflib SequenceMatcher ratio on two strings: twice the number of
matched elements divided by the total length, and 1.0 when both strings are
empty. -/
def ratioQ (a b : List Char) : ℚ :=
  let total := a.length + b.length
  if total = 0 then 1
  else 2 * (matchTotal (a.length + 1) a b : ℚ) / total

/-- The unique-value replacement component of
AnonymizationScorer.text_similarity_distance: one minus the fraction of the
original column's distinct values that survive into the transformed column,
and 0 when the original has no distinct values.  The astype(str) coercions
are identities on string cells, and the inner try/except of the Python
function never fires (the similarity computation is total), matching the
Python control flow on string columns. -/
def unique_replacement_dist (x y : List (Option String)) : ℚ :=
  let x_unique := (dropna x).dedup
  let y_unique := (dropna y).dedup
  if x_unique.length = 0 then 0
  else
    let common_values := x_unique.countP (fun s => decide (s ∈ y_unique))
    1 - (common_values : ℚ) / x_unique.length

/-- The string-similarity component of text_similarity_distance: one minus
the average difflib ratio over the first min(len x, len y, 100) aligned
cleaned pairs, and 1 when either cleaned column is empty. -/
def string_similarity_dist (x y : List (Option String)) : ℚ :=
  let x_str := dropna x
  let y_str := dropna y
  if x_str.length = 0 ∨ y_str.length = 0 then 1
  else
    let sample_size := min (min x_str.length y_str.length) 100
    let similarities :=
      List.zipWith (fun a b => ratioQ a.toList b.toList)
        (x_str.take sample_size) (y_str.take sample_size)
    let avg_similarity := if similarities = [] then 0 else similarities.sum / similarities.length
    1 - avg_similarity

/-- Combination step of AnonymizationScorer.text_similarity_distance: the
mean of the two components above. -/
def text_similarity_distance (x y : List (Option String)) : ℚ :=
  (unique_replacement_dist x y + string_similarity_dist x y) / 2

/-- A cleaned pandas Series with its surviving index labels, starting at
label n: Series.dropna() keeps each remaining value at its original
integer position of the RangeIndex, and iloc-slicing preserves those
labels.  The labelled form is what pd.crosstab aligns on. -/
def dropnaIdxFrom {α : Type} (n : ℕ) (xs : List (Option α)) : List (ℕ × α) :=
  (xs.enumFrom n).filterMap (fun p => p.2.map (fun a => (p.1, a)))

/-- Series.dropna() of a column indexed by the default RangeIndex 0, 1,
...: the list of (surviving label, value) pairs. -/
def dropnaIdx {α : Type} (xs : List (Option α)) : List (ℕ × α) :=
  dropnaIdxFrom 0 xs

/-- The paired observations tabulated by pd.crosstab(x_clean, y_clean):
crosstab combines its Series arguments on the intersection of their index
labels (get_objs_combined_axis with intersect = True), so exactly the
labels surviving in both cleaned series contribute one observation each,
namely the pair of the two values carried at that label. -/
def alignedPairs {α : Type} [DecidableEq α] (xt yt : List (ℕ × α)) : List (α × α) :=
  xt.filterMap (fun p => (yt.lookup p.1).map (fun b => (p.2, b)))

/-- One cell of the contingency table: the multiplicity of the value pair
(v, w) among the aligned observations. -/
def obsQ {α : Type} [DecidableEq α] (ps : List (α × α)) (v w : α) : ℚ :=
  (ps.count (v, w) : ℚ)

/-- Row margin of the contingency table: the sum of the row of v over the
column labels (the distinct second components of the aligned pairs), as
scipy chi2_contingency computes it from the table. -/
def rowTQ {α : Type} [DecidableEq α] (ps : List (α × α)) (v : α) : ℚ :=
  ((ps.map Prod.snd).dedup.map (fun w => obsQ ps v w)).sum

/-- Column margin of the contingency table: the sum of the column of w over
the row labels (the distinct first components of the aligned pairs). -/
def colTQ {α : Type} [DecidableEq α] (ps : List (α × α)) (w : α) : ℚ :=
  ((ps.map Prod.fst).dedup.map (fun v => obsQ ps v w)).sum

/-- Grand total of the contingency table, confusion_matrix.sum().sum(). -/
def tableNQ {α : Type} [DecidableEq α] (ps : List (α × α)) : ℚ :=
  ((ps.map Prod.fst).dedup.map (fun v => rowTQ ps v)).sum

/-- The chi-square statistic of scipy.stats.chi2_contingency on the
contingency table of the aligned pairs, with the default Yates continuity
correction: when the table has exactly one degree of freedom every observed
count is moved towards its expected value by at most one half before
squaring. -/
def chi2Q {α : Type} [DecidableEq α] (ps : List (α × α)) : ℚ :=
  let dof := ((ps.map Prod.fst).dedup.length - 1) * ((ps.map Prod.snd).dedup.length - 1)
  ((ps.map Prod.fst).dedup.map (fun v => ((ps.map Prod.snd).dedup.map (fun w =>
      let expected := rowTQ ps v * colTQ ps w / tableNQ ps
      let d := |obsQ ps v w - expected|
      let dadj := if dof = 1 then d - min d (1 / 2) else d
      dadj ^ 2 / expected)).sum)).sum

/-- Body of AnonymizationScorer.cramers_v from the contingency table on,
applied to the label-aligned observations and tracked through the square
of the returned value.  The table has one row per distinct first component
and one column per distinct second component of the aligned pairs; its
margins and total are computed from the table exactly as scipy.stats
chi2_contingency does.  The size == 0 guard corresponds to an empty label
intersection (where crosstab yields an empty table, or raises into the
surrounding except, returning 0 either way).  The returned rational is the
square of the float the Python code returns: the final clamp
max(0, min(1, sqrt q)) squared is max(0, min(1, q)), and the NaN/inf guard
cannot fire over exact rationals. -/
def cramersVSqCore {α : Type} [DecidableEq α] (ps : List (α × α)) : ℚ :=
  let r := (ps.map Prod.fst).dedup.length
  let k := (ps.map Prod.snd).dedup.length
  if r * k = 0 then 0
  else
    let n : ℚ := tableNQ ps
    let chi2 : ℚ := chi2Q ps
    if n ≤ 1 then 0
    else if r = 1 ∨ k = 1 then 0
    else
      let phi2 := chi2 / n
      let phi2corr := max 0 (phi2 - ((k : ℚ) - 1) * ((r : ℚ) - 1) / (n - 1))
      let rcorr := (r : ℚ) - ((r : ℚ) - 1) ^ 2 / (n - 1)
      let kcorr := (k : ℚ) - ((k : ℚ) - 1) ^ 2 / (n - 1)
      let denominator := min (kcorr - 1) (rcorr - 1)
      if denominator ≤ 0 then
        let fallback : ℚ := min ((k : ℚ) - 1) ((r : ℚ) - 1)
        if fallback ≤ 0 then 0
        else max 0 (min 1 (phi2 / fallback))
      else max 0 (min 1 (phi2corr / denominator))

/-- Square of the value returned by AnonymizationScorer.cramers_v: clean
both columns keeping their index labels, truncate the cleaned series to
the shorter length with iloc (which also keeps labels), return 0 when a
cleaned column is empty or the values of a truncated column are constant,
and otherwise tabulate the observations that pd.crosstab pairs, namely the
two values at each index label surviving in both truncated cleaned
series.  The float the Python function returns is the real square root of
this rational. -/
def cramersVSq {α : Type} [DecidableEq α] (x y : List (Option α)) : ℚ :=
  let x_clean := dropnaIdx x
  let y_clean := dropnaIdx y
  if x_clean = [] ∨ y_clean = [] then 0
  else
    let min_len := min x_clean.length y_clean.length
    let xt := x_clean.take min_len
    let yt := y_clean.take min_len
    if (xt.map Prod.snd).dedup.length = 1 ∨ (yt.map Prod.snd).dedup.length = 1 then 0
    else cramersVSqCore (alignedPairs xt yt)

/-- Python round-half-to-even of a rational to an integer. -/
def roundHalfEven (q : ℚ) : ℤ :=
  if q - ⌊q⌋ < 1 / 2 then ⌊q⌋
  else if q - ⌊q⌋ > 1 / 2 then ⌊q⌋ + 1
  else if Even ⌊q⌋ then ⌊q⌋ else ⌊q⌋ + 1

/-- Python round(q, d): round half to even at the d-th decimal place. -/
def pyRound (d : ℕ) (q : ℚ) : ℚ := (roundHalfEven (q * 10 ^ d) : ℚ) / 10 ^ d

/-- self.column_weights.get(column, 1.0): the weight of a column, with a
default of 1 for columns absent from the weight mapping. -/
def weightOf (weights : List (String × ℚ)) (column : String) : ℚ :=
  ((weights.find? (fun p => p.1 == column)).map (fun p => p.2)).getD 1

/-- The accumulation loop of calculate_global_score: fold over the column
distances, adding weight * distance to the first component and the weight
to the second. -/
def weightedTotals (column_distances : List (String × ℚ)) (weights : List (String × ℚ)) :
    ℚ × ℚ :=
  column_distances.foldl
    (fun acc cd => (acc.1 + weightOf weights cd.1 * cd.2, acc.2 + weightOf weights cd.1))
    (0, 0)

/-- The weighted global distance of calculate_global_score:
weighted_sum / total_weight when the total weight is positive, 0
otherwise. -/
def global_distance_of (column_distances : List (String × ℚ))
    (weights : List (String × ℚ)) : ℚ :=
  let t := weightedTotals column_distances weights
  if t.2 > 0 then t.1 / t.2 else 0

/-- AnonymizationScorer._interpret_score. -/
def interpret_score (score : ℚ) : String :=
  if score < 20 then "Very Low Anonymization - Data is largely unchanged"
  else if score < 40 then "Low Anonymization - Some changes but patterns remain"
  else if score < 60 then "Moderate Anonymization - Reasonable privacy protection"
  else if score < 80 then "High Anonymization - Strong privacy protection"
  else "Very High Anonymization - Maximum privacy protection"

/-- A pandas DataFrame: named columns of cells.  pandas guarantees that all
columns share one length and (for frames built from dicts) that names are
unique; shape is (row count of the first column, column count). -/
structure DataFrame (α : Type) where
  cols : List (String × List (Option α))

/-- df.shape: the (rows, columns) pair. -/
def DataFrame.shape {α : Type} (df : DataFrame α) : ℕ × ℕ :=
  (((df.cols.head?).map (fun c => c.2.length)).getD 0, df.cols.length)

/-- The result dictionary of calculate_global_score. -/
structure ScoreResult where
  anonify_score : ℚ
  global_distance : ℚ
  column_scores : List (String × ℚ)
  column_types : List (String × ColumnType)
  total_columns : ℕ
  score_interpretation : String
deriving DecidableEq, Repr

/-- The lookup anonymized_df[column]: the first column of the anonymized
frame carrying the given name, when the name occurs there at all. -/
def columnLookup {α : Type} (adf : DataFrame α) (name : String) :
    Option (List (Option α)) :=
  (adf.cols.find? (fun c => c.1 == name)).map (fun c => c.2)

/-- The column-distances dictionary built by the loop of
calculate_global_score: each column of the original frame whose name is
also a column name of the anonymized frame is paired with its distance;
the other columns are skipped silently. -/
def scoredDistances {α : Type}
    (colDist : List (Option α) → List (Option α) → ℚ)
    (odf adf : DataFrame α) : List (String × ℚ) :=
  odf.cols.filterMap
    (fun c => (columnLookup adf c.1).map (fun col2 => (c.1, colDist c.2 col2)))

/-- The column-types dictionary built by the same loop, from the original
frame's columns only. -/
def scoredTypes {α : Type}
    (colType : List (Option α) → ColumnType)
    (odf adf : DataFrame α) : List (String × ColumnType) :=
  odf.cols.filterMap
    (fun c => (columnLookup adf c.1).map (fun _ => (c.1, colType c.2)))

/-- AnonymizationScorer.calculate_global_score.  Raises (returns .error)
exactly when the two frames' shapes differ; otherwise scores every column
of the original frame whose name also appears in the anonymized frame,
skipping the others silently.  The per-column distance and the per-column
type detector are parameters (in the source they are
calculate_column_distance and detect_column_type; the former mixes the
square roots of cramersVSq and meanShiftSq into its means, so it is not a
rational-valued function, but every aggregation-level claim is independent
of the concrete values it produces). -/
def calculate_global_score {α : Type}
    (colDist : List (Option α) → List (Option α) → ℚ)
    (colType : List (Option α) → ColumnType)
    (column_weights : List (String × ℚ))
    (original_df anonymized_df : DataFrame α) : Except String ScoreResult :=
  if original_df.shape ≠ anonymized_df.shape then
    Except.error "Original and anonymized dataframes must have the same shape"
  else
    let column_distances := scoredDistances colDist original_df anonymized_df
    let column_types := scoredTypes colType original_df anonymized_df
    let global_distance := global_distance_of column_distances column_weights
    let anonify_score := 1 + 99 * global_distance
    Except.ok
      { anonify_score := pyRound 2 anonify_score
        global_distance := pyRound 4 global_distance
        column_scores := column_distances.map (fun cd => (cd.1, pyRound 4 cd.2))
        column_types := column_types
        total_columns := column_distances.length
        score_interpretation := interpret_score anonify_score }

/-! Helper lemmas. -/

theorem dropnaIdxFrom_cons_none {α : Type} (n : ℕ) (t : List (Option α)) :
    dropnaIdxFrom n ((none : Option α) :: t) = dropnaIdxFrom (n + 1) t := by
  simp [dropnaIdxFrom, List.enumFrom, List.filterMap_cons]

theorem dropnaIdxFrom_cons_some {α : Type} (n : ℕ) (v : α) (t : List (Option α)) :
    dropnaIdxFrom n (some v :: t) = (n, v) :: dropnaIdxFrom (n + 1) t := by
  simp [dropnaIdxFrom, List.enumFrom, List.filterMap_cons]

theorem dropnaIdxFrom_snd {α : Type} :
    ∀ (n : ℕ) (xs : List (Option α)), (dropnaIdxFrom n xs).map Prod.snd = dropna xs := by
  intro n xs
  induction xs generalizing n with
  | nil => rfl
  | cons a t ih =>
      cases a with
      | none => rw [dropnaIdxFrom_cons_none, ih]; rfl
      | some v =>
          rw [dropnaIdxFrom_cons_some, List.map_cons, ih]
          rfl

theorem dropnaIdx_snd {α : Type} (xs : List (Option α)) :
    (dropnaIdx xs).map Prod.snd = dropna xs := dropnaIdxFrom_snd 0 xs

theorem dropnaIdx_length {α : Type} (xs : List (Option α)) :
    (dropnaIdx xs).length = (dropna xs).length := by
  rw [← dropnaIdx_snd xs, List.length_map]

theorem dropnaIdx_eq_nil {α : Type} {xs : List (Option α)} :
    dropnaIdx xs = [] ↔ dropna xs = [] := by
  constructor
  · intro h
    rw [← dropnaIdx_snd xs, h]
    rfl
  · intro h
    have h2 : (dropnaIdx xs).map Prod.snd = [] := by rw [dropnaIdx_snd, h]
    exact List.map_eq_nil.mp h2

theorem dropnaIdxFrom_fst_sublist {α : Type} :
    ∀ (n : ℕ) (xs : List (Option α)),
      ((dropnaIdxFrom n xs).map Prod.fst).Sublist (List.range' n xs.length) := by
  intro n xs
  induction xs generalizing n with
  | nil => simp [dropnaIdxFrom, List.enumFrom]
  | cons a t ih =>
      cases a with
      | none =>
          rw [dropnaIdxFrom_cons_none]
          exact (ih (n + 1)).cons n
      | some v =>
          rw [dropnaIdxFrom_cons_some, List.map_cons]
          exact (ih (n + 1)).cons₂ n

theorem dropnaIdx_fst_nodup {α : Type} (xs : List (Option α)) :
    ((dropnaIdx xs).map Prod.fst).Nodup :=
  (List.nodup_range' 0 xs.length).sublist (dropnaIdxFrom_fst_sublist 0 xs)

theorem filterMap_congr_mem {β γ : Type} {f g : β → Option γ} :
    ∀ (l : List β), (∀ a ∈ l, f a = g a) → l.filterMap f = l.filterMap g := by
  intro l
  induction l with
  | nil => intro _; rfl
  | cons a t ih =>
      intro h
      rw [List.filterMap_cons, List.filterMap_cons, h a (by simp),
        ih (fun b hb => h b (by simp [hb]))]

theorem alignedPairs_zip {α : Type} [DecidableEq α] :
    ∀ (xt yt : List (ℕ × α)),
      xt.map Prod.fst = yt.map Prod.fst → (xt.map Prod.fst).Nodup →
      alignedPairs xt yt = (xt.map Prod.snd).zip (yt.map Prod.snd) := by
  intro xt
  induction xt with
  | nil =>
      intro yt hf _
      have : yt = [] := List.map_eq_nil.mp hf.symm
      rw [this]
      rfl
  | cons p xs ih =>
      intro yt hf hn
      cases yt with
      | nil => exact absurd hf (by simp)
      | cons q ys =>
          simp only [List.map_cons, List.cons.injEq] at hf
          simp only [List.map_cons, List.nodup_cons] at hn
          have hlook : (q :: ys).lookup p.1 = some q.2 := by
            have : (p.1 == q.1) = true := by simp [hf.1]
            simp [List.lookup, this]
          have htail : xs.filterMap (fun r => ((q :: ys).lookup r.1).map (fun b => (r.2, b)))
              = xs.filterMap (fun r => (ys.lookup r.1).map (fun b => (r.2, b))) := by
            apply filterMap_congr_mem
            intro r hr
            have hr1 : r.1 ∈ xs.map Prod.fst := List.mem_map.mpr ⟨r, hr, rfl⟩
            have hne : (r.1 == q.1) = false := by
              simp only [beq_eq_false_iff_ne, ne_eq]
              intro hc
              rw [← hf.1] at hc
              rw [hc] at hr1
              exact hn.1 hr1
            simp [List.lookup, hne]
          have hih := ih ys hf.2 hn.2
          unfold alignedPairs at hih ⊢
          rw [List.filterMap_cons, hlook]
          simp only [Option.map_some']
          rw [htail, hih]
          simp [List.zip_cons_cons]

theorem weightedTotals_eq_sums (cds ws : List (String × ℚ)) :
    weightedTotals cds ws =
      ((cds.map fun cd => weightOf ws cd.1 * cd.2).sum,
       (cds.map fun cd => weightOf ws cd.1).sum) := by
  have h : ∀ (l : List (String × ℚ)) (init : ℚ × ℚ),
      l.foldl (fun acc cd => (acc.1 + weightOf ws cd.1 * cd.2, acc.2 + weightOf ws cd.1)) init
        = (init.1 + (l.map fun cd => weightOf ws cd.1 * cd.2).sum,
           init.2 + (l.map fun cd => weightOf ws cd.1).sum) := by
    intro l
    induction l with
    | nil => intro init; simp
    | cons cd t ih =>
        intro init
        simp only [List.foldl_cons, List.map_cons, List.sum_cons, ih]
        simp [add_assoc]
  simpa using h cds (0, 0)

theorem global_distance_of_eq (cds ws : List (String × ℚ)) :
    global_distance_of cds ws =
      (if 0 < (cds.map fun cd => weightOf ws cd.1).sum then
        (cds.map fun cd => weightOf ws cd.1 * cd.2).sum /
          (cds.map fun cd => weightOf ws cd.1).sum
      else 0) := by
  simp [global_distance_of, weightedTotals_eq_sums]

theorem roundHalfEven_le {q : ℚ} {c : ℤ} (h : q ≤ (c : ℚ)) : roundHalfEven q ≤ c := by
  have hf : ⌊q⌋ ≤ c := by
    have := Int.floor_le_floor h
    simpa using this
  unfold roundHalfEven
  split_ifs with h1 h2 h3
  · exact hf
  · -- here 1/2 < q - ⌊q⌋, so ⌊q⌋ < q ≤ c, hence ⌊q⌋ + 1 ≤ c
    have hlt : (⌊q⌋ : ℚ) < (c : ℚ) := by
      have h0 : (⌊q⌋ : ℚ) < q := by linarith
      linarith
    have : ⌊q⌋ < c := by exact_mod_cast hlt
    omega
  · exact hf
  · have hhalf : q - ⌊q⌋ = 1 / 2 := le_antisymm (not_lt.mp h2) (not_lt.mp h1)
    have hlt : (⌊q⌋ : ℚ) < (c : ℚ) := by linarith
    have : ⌊q⌋ < c := by exact_mod_cast hlt
    omega

theorem le_roundHalfEven {q : ℚ} {c : ℤ} (h : (c : ℚ) ≤ q) : c ≤ roundHalfEven q := by
  have hf : c ≤ ⌊q⌋ := Int.le_floor.mpr h
  unfold roundHalfEven
  split_ifs <;> omega

theorem pyRound_le {d : ℕ} {q : ℚ} {c : ℤ} (h : q ≤ (c : ℚ)) : pyRound d q ≤ (c : ℚ) := by
  unfold pyRound
  rw [div_le_iff₀ (by positivity)]
  have hb : q * 10 ^ d ≤ ((c * 10 ^ d : ℤ) : ℚ) := by
    push_cast
    have hp : (0 : ℚ) < 10 ^ d := by positivity
    nlinarith
  have := roundHalfEven_le hb
  calc ((roundHalfEven (q * 10 ^ d) : ℤ) : ℚ) ≤ ((c * 10 ^ d : ℤ) : ℚ) := by exact_mod_cast this
    _ = (c : ℚ) * 10 ^ d := by push_cast; ring

theorem le_pyRound {d : ℕ} {q : ℚ} {c : ℤ} (h : (c : ℚ) ≤ q) : (c : ℚ) ≤ pyRound d q := by
  unfold pyRound
  rw [le_div_iff₀ (by positivity)]
  have hb : ((c * 10 ^ d : ℤ) : ℚ) ≤ q * 10 ^ d := by
    push_cast
    have hp : (0 : ℚ) < 10 ^ d := by positivity
    nlinarith
  have := le_roundHalfEven hb
  calc (c : ℚ) * 10 ^ d = ((c * 10 ^ d : ℤ) : ℚ) := by push_cast; ring
    _ ≤ ((roundHalfEven (q * 10 ^ d) : ℤ) : ℚ) := by exact_mod_cast this

theorem le_foldl_max (l : List ℚ) : ∀ a : ℚ, a ≤ l.foldl max a := by
  induction l with
  | nil => intro a; simp
  | cons b t ih =>
      intro a
      simpa using le_trans (le_max_left a b) (ih (max a b))

theorem foldl_max_le {c : ℚ} (l : List ℚ) :
    ∀ a : ℚ, a ≤ c → (∀ x ∈ l, x ≤ c) → l.foldl max a ≤ c := by
  induction l with
  | nil => intro a ha _; simpa using ha
  | cons b t ih =>
      intro a ha hl
      simp only [List.foldl_cons]
      exact ih (max a b) (max_le ha (hl b (by simp))) (fun x hx => hl x (by simp [hx]))

theorem sum_nonneg_of_mem {l : List ℚ} (h : ∀ x ∈ l, 0 ≤ x) : 0 ≤ l.sum := by
  induction l with
  | nil => simp
  | cons b t ih =>
      simp only [List.sum_cons]
      have := h b (by simp)
      have := ih (fun x hx => h x (by simp [hx]))
      linarith

theorem sum_le_length {l : List ℚ} (h : ∀ x ∈ l, x ≤ 1) : l.sum ≤ l.length := by
  induction l with
  | nil => simp
  | cons b t ih =>
      simp only [List.sum_cons, List.length_cons]
      have := h b (by simp)
      have := ih (fun x hx => h x (by simp [hx]))
      push_cast
      linarith

theorem ecdfQ_nonneg (u : List ℚ) (t : ℚ) : 0 ≤ ecdfQ u t := by
  unfold ecdfQ
  positivity

theorem ecdfQ_le_one (u : List ℚ) (t : ℚ) : ecdfQ u t ≤ 1 := by
  unfold ecdfQ
  rcases eq_or_ne u [] with h | h
  · simp [h]
  · have hl : 0 < (u.length : ℚ) := by
      have : 0 < u.length := List.length_pos.mpr h
      exact_mod_cast this
    rw [div_le_one hl]
    exact_mod_cast u.countP_le_length _

theorem gapSum_nonneg (f : ℚ → ℚ) (hf : ∀ t, 0 ≤ f t) :
    ∀ l : List ℚ, l.Sorted (· ≤ ·) →
      0 ≤ ((l.zip l.tail).map (fun p => f p.1 * (p.2 - p.1))).sum := by
  intro l
  induction l with
  | nil => intro _; simp
  | cons a t ih =>
      intro hs
      cases t with
      | nil => simp
      | cons b t2 =>
          have hab : a ≤ b := (List.sorted_cons.mp hs).1 b (by simp)
          have ht : (b :: t2).Sorted (· ≤ ·) := (List.sorted_cons.mp hs).2
          have hrest := ih ht
          simp only [List.tail_cons, List.zip_cons_cons, List.map_cons, List.sum_cons]
          have hterm : 0 ≤ f a * (b - a) := mul_nonneg (hf a) (by linarith)
          simpa using add_nonneg hterm hrest

theorem foldl_min_le (l : List ℚ) : ∀ a : ℚ, l.foldl min a ≤ a := by
  induction l with
  | nil => intro a; simp
  | cons c t2 ih =>
      intro a
      simpa using le_trans (ih (min a c)) (min_le_left a c)

theorem minQ_le_maxQ {l : List ℚ} (h : l ≠ []) : minQ l ≤ maxQ l := by
  cases l with
  | nil => exact absurd rfl h
  | cons a t =>
      calc minQ (a :: t) ≤ a := foldl_min_le t a
        _ ≤ maxQ (a :: t) := le_foldl_max t a

theorem varQ_nonneg {l : List ℚ} (h : 2 ≤ l.length) : 0 ≤ varQ l := by
  unfold varQ
  apply div_nonneg
  · exact sum_nonneg_of_mem (by
      intro x hx
      obtain ⟨a, _, rfl⟩ := List.mem_map.mp hx
      positivity)
  · have : (2 : ℚ) ≤ (l.length : ℚ) := by exact_mod_cast h
    linarith

theorem jaccard_distance_bounds {α : Type} [DecidableEq α] (x y : List (Option α)) :
    0 ≤ jaccard_distance x y ∧ jaccard_distance x y ≤ 1 := by
  unfold jaccard_distance
  dsimp only
  split_ifs with h1 h2
  · norm_num
  · set sx := (dropna x).dedup
    set sy := (dropna y).dedup
    set i := sx.countP (fun a => decide (a ∈ sy)) with hi
    set u := sx.length + sy.countP (fun a => decide (a ∉ sx)) with hu
    have hu0 : 0 < (u : ℚ) := by exact_mod_cast h2
    have hiu : (i : ℚ) ≤ (u : ℚ) := by
      have : i ≤ u := le_trans (sx.countP_le_length _) (Nat.le_add_right _ _)
      exact_mod_cast this
    have hq0 : 0 ≤ (i : ℚ) / (u : ℚ) := by positivity
    have hq1 : (i : ℚ) / (u : ℚ) ≤ 1 := (div_le_one hu0).mpr hiu
    constructor <;> linarith
  · norm_num

theorem wassersteinRaw_nonneg (u v : List ℚ) : 0 ≤ wassersteinRaw u v := by
  unfold wassersteinRaw
  exact gapSum_nonneg (fun t => |ecdfQ u t - ecdfQ v t|) (fun t => abs_nonneg _)
    ((u ++ v).insertionSort (· ≤ ·)) (List.sorted_insertionSort _ _)

theorem wasserstein_bounds (x y : List (Option ℚ)) :
    0 ≤ wasserstein_distance_normalized x y ∧ wasserstein_distance_normalized x y ≤ 1 := by
  unfold wasserstein_distance_normalized
  dsimp only
  split_ifs with h1 h2 h3
  · norm_num
  · norm_num
  · norm_num
  · have hwd : 0 ≤ wassersteinRaw (dropna x) (dropna y) := wassersteinRaw_nonneg _ _
    have hx : dropna x ≠ [] := by
      intro hc
      exact h1 (Or.inl hc)
    have hr0 : 0 ≤ maxQ (dropna x) - minQ (dropna x) := by
      have := minQ_le_maxQ hx
      linarith
    have hrpos : 0 < maxQ (dropna x) - minQ (dropna x) := lt_of_le_of_ne hr0 (Ne.symm h2)
    constructor
    · exact le_min (by norm_num) (div_nonneg hwd hr0)
    · exact min_le_left _ _

theorem ks_bounds (x y : List (Option ℚ)) :
    0 ≤ kolmogorov_smirnov_distance x y ∧ kolmogorov_smirnov_distance x y ≤ 1 := by
  unfold kolmogorov_smirnov_distance
  dsimp only
  split_ifs with h1
  · norm_num
  · constructor
    · exact le_foldl_max _ 0
    · apply foldl_max_le _ 0 (by norm_num)
      intro z hz
      obtain ⟨t, _, rfl⟩ := List.mem_map.mp hz
      have b1 := ecdfQ_nonneg (dropna x) t
      have b2 := ecdfQ_le_one (dropna x) t
      have b3 := ecdfQ_nonneg (dropna y) t
      have b4 := ecdfQ_le_one (dropna y) t
      rw [abs_le]
      constructor <;> linarith

theorem meanShiftSq_bounds (x y : List (Option ℚ)) :
    0 ≤ meanShiftSq x y ∧ meanShiftSq x y ≤ 1 := by
  unfold meanShiftSq
  dsimp only
  split_ifs with h1 h2 h3 h4
  · norm_num
  · norm_num
  · norm_num
  · norm_num
  · have hx : dropna x ≠ [] := by
      intro hc
      exact h1 (Or.inl hc)
    have hlen : 2 ≤ (dropna x).length := by
      have h0 : 0 < (dropna x).length := List.length_pos.mpr hx
      omega
    have hv0 : 0 ≤ varQ (dropna x) := varQ_nonneg hlen
    have hvpos : 0 < varQ (dropna x) := lt_of_le_of_ne hv0 (Ne.symm h3)
    constructor
    · exact le_min (by norm_num) (by positivity)
    · exact min_le_left _ _

theorem cramersVSqCore_bounds {α : Type} [DecidableEq α] (ps : List (α × α)) :
    0 ≤ cramersVSqCore ps ∧ cramersVSqCore ps ≤ 1 := by
  unfold cramersVSqCore
  dsimp only
  split_ifs <;> norm_num

theorem cramersVSq_bounds {α : Type} [DecidableEq α] (x y : List (Option α)) :
    0 ≤ cramersVSq x y ∧ cramersVSq x y ≤ 1 := by
  unfold cramersVSq
  dsimp only
  split_ifs
  · norm_num
  · norm_num
  · exact cramersVSqCore_bounds _

theorem commonRun_le {α : Type} [DecidableEq α] :
    ∀ a b : List α, commonRun a b ≤ a.length ∧ commonRun a b ≤ b.length := by
  intro a
  induction a with
  | nil => intro b; simp [commonRun]
  | cons c t ih =>
      intro b
      cases b with
      | nil => simp [commonRun]
      | cons d s =>
          unfold commonRun
          split_ifs
          · have := ih s
            constructor <;> simp <;> omega
          · constructor <;> simp

theorem foldl_inv {β ι : Type} {P : β → Prop} (f : β → ι → β)
    (h : ∀ acc x, P acc → P (f acc x)) :
    ∀ (l : List ι) (init : β), P init → P (l.foldl f init) := by
  intro l
  induction l with
  | nil => intro init hi; simpa using hi
  | cons c t ih =>
      intro init hi
      simpa using ih (f init c) (h init c hi)

theorem bestBlock_inv {α : Type} [DecidableEq α] (a b : List α) :
    (bestBlock a b).2.2 ≤ a.length - (bestBlock a b).1 ∧
      (bestBlock a b).2.2 ≤ b.length - (bestBlock a b).2.1 := by
  unfold bestBlock
  apply foldl_inv
    (P := fun t : ℕ × ℕ × ℕ => t.2.2 ≤ a.length - t.1 ∧ t.2.2 ≤ b.length - t.2.1)
  · intro acc i hacc
    apply foldl_inv
      (P := fun t : ℕ × ℕ × ℕ => t.2.2 ≤ a.length - t.1 ∧ t.2.2 ≤ b.length - t.2.1)
    · intro acc2 j hacc2
      dsimp only
      split_ifs
      · refine ⟨?_, ?_⟩
        · simpa using (commonRun_le (a.drop i) (b.drop j)).1
        · simpa using (commonRun_le (a.drop i) (b.drop j)).2
      · exact hacc2
    · exact hacc
  · simp

theorem matchTotal_le {α : Type} [DecidableEq α] :
    ∀ (fuel : ℕ) (a b : List α),
      matchTotal fuel a b ≤ a.length ∧ matchTotal fuel a b ≤ b.length := by
  intro fuel
  induction fuel with
  | zero => intro a b; simp [matchTotal]
  | succ f ih =>
      intro a b
      have hbb := bestBlock_inv a b
      rcases h : bestBlock a b with ⟨i, j, k⟩
      rw [h] at hbb
      simp only at hbb
      simp only [matchTotal, h]
      split_ifs with hk
      · simp
      · have h1 := ih (a.take i) (b.take j)
        have h2 := ih (a.drop (i + k)) (b.drop (j + k))
        have hta : (a.take i).length = min i a.length := a.length_take i
        have htb : (b.take j).length = min j b.length := b.length_take j
        have hda : (a.drop (i + k)).length = a.length - (i + k) := a.length_drop (i + k)
        have hdb : (b.drop (j + k)).length = b.length - (j + k) := b.length_drop (j + k)
        rw [hta] at h1
        rw [htb] at h1
        rw [hda] at h2
        rw [hdb] at h2
        have hmin1 : min i a.length ≤ i := min_le_left _ _
        have hmin2 : min j b.length ≤ j := min_le_left _ _
        constructor <;> omega

theorem ratioQ_bounds (a b : List Char) : 0 ≤ ratioQ a b ∧ ratioQ a b ≤ 1 := by
  unfold ratioQ
  dsimp only
  split_ifs with h
  · norm_num
  · have hm := matchTotal_le (a.length + 1) a b
    have hpos : (0 : ℚ) < ((a.length + b.length : ℕ) : ℚ) := by
      have : 0 < a.length + b.length := Nat.pos_of_ne_zero h
      exact_mod_cast this
    constructor
    · positivity
    · rw [div_le_one hpos]
      have h2 : 2 * matchTotal (a.length + 1) a b ≤ a.length + b.length := by omega
      exact_mod_cast h2

theorem mem_zipWith_imp {β γ : Type} (f : β → β → γ) :
    ∀ (l1 l2 : List β) (z : γ), z ∈ List.zipWith f l1 l2 → ∃ p q, z = f p q := by
  intro l1
  induction l1 with
  | nil => intro l2 z hz; simp at hz
  | cons c t ih =>
      intro l2 z hz
      cases l2 with
      | nil => simp at hz
      | cons d s =>
          simp only [List.zipWith_cons_cons, List.mem_cons] at hz
          rcases hz with hz | hz
          · exact ⟨c, d, hz⟩
          · exact ih s z hz

theorem unique_replacement_bounds (x y : List (Option String)) :
    0 ≤ unique_replacement_dist x y ∧ unique_replacement_dist x y ≤ 1 := by
  unfold unique_replacement_dist
  dsimp only
  split_ifs with h
  · norm_num
  · set xu := (dropna x).dedup with hxu
    set yu := (dropna y).dedup with hyu
    have hl : 0 < (xu.length : ℚ) := by
      have : 0 < xu.length := Nat.pos_of_ne_zero h
      exact_mod_cast this
    have hc : (xu.countP (fun s => decide (s ∈ yu)) : ℚ) ≤ (xu.length : ℚ) := by
      exact_mod_cast xu.countP_le_length _
    have h0 : 0 ≤ (xu.countP (fun s => decide (s ∈ yu)) : ℚ) / xu.length := by positivity
    have h1 : (xu.countP (fun s => decide (s ∈ yu)) : ℚ) / xu.length ≤ 1 :=
      (div_le_one hl).mpr hc
    constructor <;> linarith

theorem string_similarity_bounds (x y : List (Option String)) :
    0 ≤ string_similarity_dist x y ∧ string_similarity_dist x y ≤ 1 := by
  unfold string_similarity_dist
  dsimp only
  split_ifs with h he
  · norm_num
  · norm_num
  · set sims := List.zipWith (fun a b => ratioQ a.toList b.toList)
        ((dropna x).take (min (min (dropna x).length (dropna y).length) 100))
        ((dropna y).take (min (min (dropna x).length (dropna y).length) 100)) with hsims
    have hsimbounds : ∀ z ∈ sims, 0 ≤ z ∧ z ≤ 1 := by
      intro z hz
      obtain ⟨p, q, rfl⟩ := mem_zipWith_imp _ _ _ z hz
      exact ratioQ_bounds _ _
    have hl : 0 < (sims.length : ℚ) := by
      have : 0 < sims.length := List.length_pos.mpr he
      exact_mod_cast this
    have hs0 : 0 ≤ sims.sum := sum_nonneg_of_mem (fun z hz => (hsimbounds z hz).1)
    have hs1 : sims.sum ≤ (sims.length : ℚ) := sum_le_length (fun z hz => (hsimbounds z hz).2)
    have q0 : 0 ≤ sims.sum / sims.length := by positivity
    have q1 : sims.sum / sims.length ≤ 1 := (div_le_one hl).mpr hs1
    constructor <;> linarith

theorem text_similarity_bounds (x y : List (Option String)) :
    0 ≤ text_similarity_distance x y ∧ text_similarity_distance x y ≤ 1 := by
  unfold text_similarity_distance
  have h1 := unique_replacement_bounds x y
  have h2 := string_similarity_bounds x y
  constructor <;> linarith [h1.1, h1.2, h2.1, h2.2]

theorem calculate_global_score_ok {α : Type}
    (colDist : List (Option α) → List (Option α) → ℚ)
    (colType : List (Option α) → ColumnType)
    (ws : List (String × ℚ)) (odf adf : DataFrame α)
    (hsh : odf.shape = adf.shape) :
    calculate_global_score colDist colType ws odf adf = Except.ok
      { anonify_score :=
          pyRound 2 (1 + 99 * global_distance_of (scoredDistances colDist odf adf) ws)
        global_distance := pyRound 4 (global_distance_of (scoredDistances colDist odf adf) ws)
        column_scores := (scoredDistances colDist odf adf).map (fun cd => (cd.1, pyRound 4 cd.2))
        column_types := scoredTypes colType odf adf
        total_columns := (scoredDistances colDist odf adf).length
        score_interpretation :=
          interpret_score (1 + 99 * global_distance_of (scoredDistances colDist odf adf) ws) } := by
  unfold calculate_global_score
  rw [if_neg (not_ne_iff.mpr hsh)]

theorem calculate_global_score_error {α : Type}
    (colDist : List (Option α) → List (Option α) → ℚ)
    (colType : List (Option α) → ColumnType)
    (ws : List (String × ℚ)) (odf adf : DataFrame α)
    (hsh : odf.shape ≠ adf.shape) :
    calculate_global_score colDist colType ws odf adf =
      Except.error "Original and anonymized dataframes must have the same shape" := by
  unfold calculate_global_score
  rw [if_pos hsh]

/-! Claim theorems.  The rational operations of Batteries are irreducible by
default, which blocks kernel evaluation of concrete instances; restoring the
default reducibility locally lets the closed witnesses below be checked by
decide. -/

attribute [local semireducible] Rat.mul Rat.add Rat.sub Rat.inv

/-- C4: for every pair of input columns — including empty, all-null and
constant columns — each individual metric function returns a value within
[0, 1]: the association coefficient cramers_v (the square root of
cramersVSq), the Jaccard set-overlap distance, the normalized Wasserstein
distance, the Kolmogorov-Smirnov statistic, the mean-shift distance (the
square root of meanShiftSq) and the text similarity distance. -/
theorem claim_C4 {α : Type} [DecidableEq α] (x y : List (Option α))
    (xs ys : List (Option String)) (u v : List (Option ℚ)) :
    (0 ≤ Real.sqrt ((cramersVSq x y : ℚ) : ℝ) ∧ Real.sqrt ((cramersVSq x y : ℚ) : ℝ) ≤ 1)
    ∧ (0 ≤ jaccard_distance x y ∧ jaccard_distance x y ≤ 1)
    ∧ (0 ≤ wasserstein_distance_normalized u v ∧ wasserstein_distance_normalized u v ≤ 1)
    ∧ (0 ≤ kolmogorov_smirnov_distance u v ∧ kolmogorov_smirnov_distance u v ≤ 1)
    ∧ (0 ≤ Real.sqrt ((meanShiftSq u v : ℚ) : ℝ) ∧ Real.sqrt ((meanShiftSq u v : ℚ) : ℝ) ≤ 1)
    ∧ (0 ≤ text_similarity_distance xs ys ∧ text_similarity_distance xs ys ≤ 1) := by
  refine ⟨⟨Real.sqrt_nonneg _, ?_⟩, jaccard_distance_bounds x y,
    wasserstein_bounds u v, ks_bounds u v, ⟨Real.sqrt_nonneg _, ?_⟩,
    text_similarity_bounds xs ys⟩
  · exact Real.sqrt_le_one.mpr (by exact_mod_cast (cramersVSq_bounds x y).2)
  · exact Real.sqrt_le_one.mpr (by exact_mod_cast (meanShiftSq_bounds u v).2)

/-- C10: for every original text column with no non-missing values the
division by the original's distinct-value count is guarded: the
unique-replacement component is 0, the string-similarity component is 1,
and text_similarity_distance returns 1/2 regardless of the transformed
column. -/
theorem claim_C10 (x y : List (Option String)) (h : dropna x = []) :
    unique_replacement_dist x y = 0
    ∧ string_similarity_dist x y = 1
    ∧ text_similarity_distance x y = 1 / 2 := by
  have h1 : unique_replacement_dist x y = 0 := by
    unfold unique_replacement_dist
    simp [h]
  have h2 : string_similarity_dist x y = 1 := by
    unfold string_similarity_dist
    simp [h]
  refine ⟨h1, h2, ?_⟩
  unfold text_similarity_distance
  rw [h1, h2]
  norm_num

/-- Witness for C10 at a concrete all-missing original column. -/
theorem claim_C10_witness :
    dropna ([none, none] : List (Option String)) = []
    ∧ text_similarity_distance [none, none] [some "abc", some "xyz"] = 1 / 2 :=
  ⟨by decide, (claim_C10 [none, none] [some "abc", some "xyz"] (by decide)).2.2⟩

/-- C5: the classifier drops missing values and then returns Categorical on
an empty remainder, Numerical when every remaining value parses as a
number, Categorical when the distinct-to-total ratio is strictly below one
half, and Text otherwise: detect_column_type coincides with the
specification's algorithm classifySpec on every input (and it is a total
function, so it throws nothing).  The closed conjuncts exercise each branch
and the strictness of the 0.5 threshold (two distinct values among four is
ratio exactly one half, hence Text). -/
theorem claim_C5 :
    (∀ {α : Type} [DecidableEq α] (parsesNum : α → Bool) (series : List (Option α)),
      detect_column_type parsesNum series = classifySpec parsesNum series)
    ∧ detect_column_type isNumericString ([] : List (Option String)) = ColumnType.categorical
    ∧ detect_column_type isNumericString [none, none] = ColumnType.categorical
    ∧ detect_column_type isNumericString [some "1", some "2.5", some "3e4"]
        = ColumnType.numerical
    ∧ detect_column_type isNumericString [some "a", some "a", some "a"]
        = ColumnType.categorical
    ∧ detect_column_type isNumericString [some "a", some "a", some "b", some "b"]
        = ColumnType.text
    ∧ detect_column_type isNumericString [some "a", none, some "b"] = ColumnType.text := by
  refine ⟨?_, by decide, by decide, by decide, by decide, by decide, by decide⟩
  intro α _ parsesNum series
  unfold detect_column_type classifySpec
  by_cases h : dropna series = [] <;> simp [h]

/-- C3: the global normalized distance is the weighted mean
sum(weight * distance) / sum(weight) with missing weights defaulting to 1
(and 0 when no columns are present); the public score is
1 + 99 * global_distance rounded to two decimals; the interpretation band
uses the thresholds 20/40/60/80; and the concrete example
column_scores a = 0.2, b = 0.8 with equal weights gives global distance 1/2
and score 50.5. -/
theorem claim_C3 :
    (∀ cds ws : List (String × ℚ),
      global_distance_of cds ws =
        (if 0 < (cds.map fun cd => weightOf ws cd.1).sum then
          (cds.map fun cd => weightOf ws cd.1 * cd.2).sum /
            (cds.map fun cd => weightOf ws cd.1).sum
        else 0))
    ∧ (∀ ws c, ws.find? (fun p => p.1 == c) = none → weightOf ws c = 1)
    ∧ global_distance_of [] [] = 0
    ∧ (∀ {α : Type} (colDist : List (Option α) → List (Option α) → ℚ) (colType)
        (ws : List (String × ℚ)) (odf adf : DataFrame α) (r : ScoreResult),
        calculate_global_score colDist colType ws odf adf = Except.ok r →
        r.anonify_score =
          pyRound 2 (1 + 99 * global_distance_of (scoredDistances colDist odf adf) ws))
    ∧ (∀ s : ℚ,
        (s < 20 → interpret_score s = "Very Low Anonymization - Data is largely unchanged")
        ∧ (20 ≤ s → s < 40 →
            interpret_score s = "Low Anonymization - Some changes but patterns remain")
        ∧ (40 ≤ s → s < 60 →
            interpret_score s = "Moderate Anonymization - Reasonable privacy protection")
        ∧ (60 ≤ s → s < 80 →
            interpret_score s = "High Anonymization - Strong privacy protection")
        ∧ (80 ≤ s →
            interpret_score s = "Very High Anonymization - Maximum privacy protection"))
    ∧ global_distance_of [("a", 1 / 5), ("b", 4 / 5)] [] = 1 / 2
    ∧ pyRound 2 (1 + 99 * global_distance_of [("a", 1 / 5), ("b", 4 / 5)] []) = 101 / 2 := by
  refine ⟨?_, ?_, by decide, ?_, ?_, by decide, by decide⟩
  · intro cds ws
    exact global_distance_of_eq cds ws
  · intro ws c h
    unfold weightOf
    rw [h]
    rfl
  · intro α colDist colType ws odf adf r h
    by_cases hsh : odf.shape = adf.shape
    · rw [calculate_global_score_ok colDist colType ws odf adf hsh] at h
      obtain rfl : _ = r := Except.ok.inj h
      rfl
    · rw [calculate_global_score_error colDist colType ws odf adf hsh] at h
      exact absurd h (by simp)
  · intro s
    unfold interpret_score
    refine ⟨fun h1 => ?_, fun h1 h2 => ?_, fun h1 h2 => ?_, fun h1 h2 => ?_, fun h1 => ?_⟩ <;>
      split_ifs <;> first | rfl | linarith

/-- Witness for C3: the banding implications at concrete scores, and the
weighted-mean formula at a concrete distance map. -/
theorem claim_C3_witness :
    interpret_score 10 = "Very Low Anonymization - Data is largely unchanged"
    ∧ interpret_score 50 = "Moderate Anonymization - Reasonable privacy protection"
    ∧ interpret_score 85 = "Very High Anonymization - Maximum privacy protection"
    ∧ weightOf [("b", 3)] "a" = 1 :=
  ⟨(claim_C3.2.2.2.2.1 10).1 (by norm_num),
   (claim_C3.2.2.2.2.1 50).2.2.1 (by norm_num) (by norm_num),
   (claim_C3.2.2.2.2.1 85).2.2.2.2 (by norm_num),
   claim_C3.2.1 [("b", 3)] "a" (by decide)⟩

/-- C8: a column of weight 0 does not influence the global normalized
distance (deleting its entries from the distance map leaves the result
unchanged), and omitting a column from the weight map is the same as
giving it weight 1. -/
theorem claim_C8 (cds ws : List (String × ℚ)) (c : String) :
    (weightOf ws c = 0 →
      global_distance_of (cds.filter (fun cd => cd.1 != c)) ws
        = global_distance_of cds ws)
    ∧ (ws.find? (fun p => p.1 == c) = none →
      global_distance_of cds ((c, 1) :: ws) = global_distance_of cds ws) := by
  constructor
  · intro h0
    rw [global_distance_of_eq, global_distance_of_eq]
    have hsum : ∀ f : String × ℚ → ℚ, (∀ cd : String × ℚ, cd.1 = c → f cd = 0) →
        ((cds.filter (fun cd => cd.1 != c)).map f).sum = (cds.map f).sum := by
      intro f hf
      induction cds with
      | nil => simp
      | cons cd t ih =>
          by_cases hc : cd.1 = c
          · have : (cd.1 != c) = false := by simp [hc]
            simp [List.filter_cons, this, hf cd hc, ih]
          · have : (cd.1 != c) = true := by simp [hc]
            simp [List.filter_cons, this, ih]
    rw [hsum (fun cd => weightOf ws cd.1 * cd.2) (by
          intro cd hc
          show weightOf ws cd.1 * cd.2 = 0
          rw [hc, h0, zero_mul]),
        hsum (fun cd => weightOf ws cd.1) (by
          intro cd hc
          show weightOf ws cd.1 = 0
          rw [hc, h0])]
  · intro hnone
    rw [global_distance_of_eq, global_distance_of_eq]
    have hw : ∀ name, weightOf ((c, 1) :: ws) name = weightOf ws name := by
      intro name
      unfold weightOf
      by_cases hn : c = name
      · subst hn
        rw [hnone]
        simp
      · have : ((c, (1 : ℚ)).1 == name) = false := by
          simp [hn]
        simp [List.find?, this]
    simp only [hw]

/-- Witness for C8 at a concrete distance map and weight map. -/
theorem claim_C8_witness :
    global_distance_of [("a", 1 / 2), ("b", 1)] [("b", 0)]
      = global_distance_of [("a", 1 / 2)] [("b", 0)]
    ∧ global_distance_of [("a", 1 / 2)] [("b", 0), ("a", 1)]
      = global_distance_of [("a", 1 / 2)] [("b", 0)] := by
  constructor
  · have h := (claim_C8 [("a", 1 / 2), ("b", 1)] [("b", 0)] "b").1 (by decide)
    have he : (([("a", (1 : ℚ) / 2), ("b", 1)]).filter (fun cd => cd.1 != "b"))
        = [("a", (1 : ℚ) / 2)] := by decide
    rw [he] at h
    exact h.symm
  · have h := (claim_C8 [("a", 1 / 2)] [("b", 0)] "a").2 (by decide)
    exact h.symm

theorem sum_map_le_sum_map {β : Type} (l : List β) (f g : β → ℚ)
    (h : ∀ x ∈ l, f x ≤ g x) : (l.map f).sum ≤ (l.map g).sum := by
  induction l with
  | nil => simp
  | cons b t ih =>
      simp only [List.map_cons, List.sum_cons]
      have h1 := h b (by simp)
      have h2 := ih (fun x hx => h x (by simp [hx]))
      linarith

theorem weightOf_nonneg {ws : List (String × ℚ)} (h : ∀ p ∈ ws, 0 ≤ p.2) (name : String) :
    0 ≤ weightOf ws name := by
  unfold weightOf
  cases hf : ws.find? (fun p => p.1 == name) with
  | none => norm_num
  | some p =>
      have := h p (List.mem_of_find?_eq_some hf)
      simpa using this

theorem global_distance_of_bounds {cds ws : List (String × ℚ)}
    (h1 : ∀ cd ∈ cds, 0 ≤ cd.2 ∧ cd.2 ≤ 1) (h2 : ∀ p ∈ ws, 0 ≤ p.2) :
    0 ≤ global_distance_of cds ws ∧ global_distance_of cds ws ≤ 1 := by
  rw [global_distance_of_eq]
  split_ifs with hpos
  · have hnum : 0 ≤ (cds.map fun cd => weightOf ws cd.1 * cd.2).sum := by
      apply sum_nonneg_of_mem
      intro z hz
      obtain ⟨cd, hcd, rfl⟩ := List.mem_map.mp hz
      exact mul_nonneg (weightOf_nonneg h2 cd.1) (h1 cd hcd).1
    have hle : (cds.map fun cd => weightOf ws cd.1 * cd.2).sum
        ≤ (cds.map fun cd => weightOf ws cd.1).sum := by
      apply sum_map_le_sum_map
      intro cd hcd
      have hw := weightOf_nonneg h2 cd.1
      nlinarith [(h1 cd hcd).2]
    exact ⟨div_nonneg hnum (le_of_lt hpos), (div_le_one hpos).mpr hle⟩
  · norm_num

theorem scoredTypes_length {α : Type}
    (colDist : List (Option α) → List (Option α) → ℚ)
    (colType : List (Option α) → ColumnType) (odf adf : DataFrame α) :
    (scoredTypes colType odf adf).length = (scoredDistances colDist odf adf).length := by
  unfold scoredTypes scoredDistances
  induction odf.cols with
  | nil => simp
  | cons c t ih =>
      cases hl : columnLookup adf c.1 with
      | none => simp [List.filterMap_cons, hl, ih]
      | some col2 => simp [List.filterMap_cons, hl, ih]

theorem interpret_score_mem (s : ℚ) :
    interpret_score s = "Very Low Anonymization - Data is largely unchanged"
    ∨ interpret_score s = "Low Anonymization - Some changes but patterns remain"
    ∨ interpret_score s = "Moderate Anonymization - Reasonable privacy protection"
    ∨ interpret_score s = "High Anonymization - Strong privacy protection"
    ∨ interpret_score s = "Very High Anonymization - Maximum privacy protection" := by
  unfold interpret_score
  split_ifs <;> simp

/-- C9: when the two frames have equal shape but a column name of the
original is absent from the transformed frame, that column is silently
skipped from scoring; with fully disjoint column name sets nothing is
scored, total_columns is 0, global_distance is 0 and the public score is
1. -/
theorem claim_C9 {α : Type}
    (colDist : List (Option α) → List (Option α) → ℚ)
    (colType : List (Option α) → ColumnType)
    (ws : List (String × ℚ)) (odf adf : DataFrame α)
    (hsh : odf.shape = adf.shape)
    (hdisj : ∀ c ∈ odf.cols, adf.cols.find? (fun d => d.1 == c.1) = none) :
    calculate_global_score colDist colType ws odf adf = Except.ok
      { anonify_score := 1
        global_distance := 0
        column_scores := []
        column_types := []
        total_columns := 0
        score_interpretation := "Very Low Anonymization - Data is largely unchanged" } := by
  rw [calculate_global_score_ok colDist colType ws odf adf hsh]
  have hnone : ∀ c ∈ odf.cols, columnLookup adf c.1 = none := by
    intro c hc
    unfold columnLookup
    rw [hdisj c hc]
    rfl
  have hsd : scoredDistances colDist odf adf = [] := by
    unfold scoredDistances
    rw [List.filterMap_eq_nil_iff]
    intro c hc
    rw [hnone c hc]
    rfl
  have hst : scoredTypes colType odf adf = [] := by
    unfold scoredTypes
    rw [List.filterMap_eq_nil_iff]
    intro c hc
    rw [hnone c hc]
    rfl
  rw [hsd, hst]
  have hgd : global_distance_of [] ws = 0 := by
    unfold global_distance_of weightedTotals
    norm_num
  rw [hgd]
  have h1 : pyRound 2 (1 + 99 * (0 : ℚ)) = 1 := by decide
  have h2 : pyRound 4 (0 : ℚ) = 0 := by decide
  have h3 : interpret_score (1 + 99 * (0 : ℚ))
      = "Very Low Anonymization - Data is largely unchanged" := by decide
  simp [h1, h2, h3]
  exact ⟨by decide, by decide⟩

/-- Witness for C9 at concrete equal-shape frames with disjoint column
names. -/
theorem claim_C9_witness :
    (DataFrame.mk [("a", [some "x"])] : DataFrame String).shape
        = (DataFrame.mk [("b", [some "y"])] : DataFrame String).shape
    ∧ calculate_global_score (fun _ _ => (0 : ℚ)) (fun _ => ColumnType.categorical) []
        (DataFrame.mk [("a", [some "x"])]) (DataFrame.mk [("b", [some "y"])]) = Except.ok
      { anonify_score := 1
        global_distance := 0
        column_scores := []
        column_types := []
        total_columns := 0
        score_interpretation := "Very Low Anonymization - Data is largely unchanged" } :=
  ⟨by decide,
   claim_C9 (fun _ _ => (0 : ℚ)) (fun _ => ColumnType.categorical) []
     (DataFrame.mk [("a", [some "x"])]) (DataFrame.mk [("b", [some "y"])])
     (by decide) (by decide)⟩

/-- C2: calculate_global_score raises exactly when the two frames have
different shapes; on every same-shape pair it returns a complete result,
whose counts are consistent and whose numeric fields are well-formed
(distance in [0,1], score in [1,100], interpretation one of the five
bands) whenever the per-column distance function is [0,1]-valued — as the
source's is, by the bounds of claim C4 — and the weights are
nonnegative. -/
theorem claim_C2 {α : Type}
    (colDist : List (Option α) → List (Option α) → ℚ)
    (colType : List (Option α) → ColumnType)
    (ws : List (String × ℚ)) (odf adf : DataFrame α) :
    (calculate_global_score colDist colType ws odf adf
        = Except.error "Original and anonymized dataframes must have the same shape"
      ↔ odf.shape ≠ adf.shape)
    ∧ (odf.shape = adf.shape →
        ∃ r : ScoreResult,
          calculate_global_score colDist colType ws odf adf = Except.ok r
          ∧ r.total_columns = r.column_scores.length
          ∧ r.column_types.length = r.total_columns
          ∧ ((∀ a b, 0 ≤ colDist a b ∧ colDist a b ≤ 1) → (∀ p ∈ ws, 0 ≤ p.2) →
              (0 ≤ r.global_distance ∧ r.global_distance ≤ 1)
              ∧ (1 ≤ r.anonify_score ∧ r.anonify_score ≤ 100)
              ∧ (r.score_interpretation
                    = "Very Low Anonymization - Data is largely unchanged"
                ∨ r.score_interpretation
                    = "Low Anonymization - Some changes but patterns remain"
                ∨ r.score_interpretation
                    = "Moderate Anonymization - Reasonable privacy protection"
                ∨ r.score_interpretation
                    = "High Anonymization - Strong privacy protection"
                ∨ r.score_interpretation
                    = "Very High Anonymization - Maximum privacy protection"))) := by
  constructor
  · constructor
    · intro h
      by_contra hsh
      rw [calculate_global_score_ok colDist colType ws odf adf hsh] at h
      exact absurd h (by simp)
    · exact calculate_global_score_error colDist colType ws odf adf
  · intro hsh
    refine ⟨_, calculate_global_score_ok colDist colType ws odf adf hsh, by simp, ?_, ?_⟩
    · exact scoredTypes_length colDist colType odf adf
    · intro hcd hw
      have hmem : ∀ cd ∈ scoredDistances colDist odf adf, 0 ≤ cd.2 ∧ cd.2 ≤ 1 := by
        intro cd hcdm
        unfold scoredDistances at hcdm
        obtain ⟨c, hc, hfc⟩ := List.mem_filterMap.mp hcdm
        obtain ⟨col2, hcol2, rfl⟩ := Option.map_eq_some.mp hfc
        exact hcd c.2 col2
      have hgd := global_distance_of_bounds hmem hw
      set gd := global_distance_of (scoredDistances colDist odf adf) ws with hgddef
      refine ⟨⟨?_, ?_⟩, ⟨?_, ?_⟩, interpret_score_mem _⟩
      · have := le_pyRound (d := 4) (c := 0) (by exact_mod_cast hgd.1)
        simpa using this
      · have := pyRound_le (d := 4) (c := 1) (by exact_mod_cast hgd.2)
        simpa using this
      · have hs : ((1 : ℤ) : ℚ) ≤ 1 + 99 * gd := by
          push_cast
          nlinarith [hgd.1]
        have := le_pyRound (d := 2) hs
        simpa using this
      · have hs : 1 + 99 * gd ≤ ((100 : ℤ) : ℚ) := by
          push_cast
          nlinarith [hgd.2]
        have := pyRound_le (d := 2) hs
        simpa using this

/-- Witness for C2: a shape-mismatched concrete pair raises, an
equal-shape concrete pair returns a result. -/
theorem claim_C2_witness :
    calculate_global_score (fun _ _ => (0 : ℚ)) (fun _ => ColumnType.categorical) []
        (DataFrame.mk [("a", [some "x"])]) (DataFrame.mk [] : DataFrame String)
      = Except.error "Original and anonymized dataframes must have the same shape"
    ∧ ∃ r : ScoreResult,
        calculate_global_score (fun _ _ => (0 : ℚ)) (fun _ => ColumnType.categorical) []
          (DataFrame.mk [("a", [some "x"])]) (DataFrame.mk [("a", [some "y"])]) = Except.ok r := by
  constructor
  · exact (claim_C2 (fun _ _ => (0 : ℚ)) (fun _ => ColumnType.categorical) []
      (DataFrame.mk [("a", [some "x"])]) (DataFrame.mk [])).1.mpr (by decide)
  · obtain ⟨r, hr, -⟩ := (claim_C2 (fun _ _ => (0 : ℚ)) (fun _ => ColumnType.categorical) []
      (DataFrame.mk [("a", [some "x"])]) (DataFrame.mk [("a", [some "y"])])).2 (by decide)
    exact ⟨r, hr⟩

/-- Reduction of cramers_v to a positional pairing when the two cleaned
columns survive at exactly the same index labels: the label intersection
is then everything and no truncation happens, so the aligned observations
are the positional zip of the cleaned value lists. -/
theorem cramersVSq_eq_zip {α : Type} [DecidableEq α] (x y : List (Option α))
    (hfst : (dropnaIdx x).map Prod.fst = (dropnaIdx y).map Prod.fst) :
    cramersVSq x y =
      (if dropna x = [] ∨ dropna y = [] then 0
       else if (dropna x).dedup.length = 1 ∨ (dropna y).dedup.length = 1 then 0
       else cramersVSqCore ((dropna x).zip (dropna y))) := by
  have hlen : (dropnaIdx x).length = (dropnaIdx y).length := by
    have h1 := congrArg List.length hfst
    simpa using h1
  unfold cramersVSq
  dsimp only
  rw [min_eq_left (le_of_eq hlen), List.take_length]
  rw [show (dropnaIdx y).take (dropnaIdx x).length = dropnaIdx y by
    rw [hlen, List.take_length]]
  by_cases he : dropna x = [] ∨ dropna y = []
  · rw [if_pos ?hn, if_pos he]
    case hn =>
      rcases he with he | he
      · exact Or.inl (dropnaIdx_eq_nil.mpr he)
      · exact Or.inr (dropnaIdx_eq_nil.mpr he)
  · rw [if_neg ?hn, if_neg he]
    case hn =>
      intro hc
      rcases hc with hc | hc
      · exact he (Or.inl (dropnaIdx_eq_nil.mp hc))
      · exact he (Or.inr (dropnaIdx_eq_nil.mp hc))
    rw [alignedPairs_zip _ _ hfst (dropnaIdx_fst_nodup x), dropnaIdx_snd, dropnaIdx_snd]

/-- C1 counterexample: a degenerate categorical pair (the original column
is constant) on which the claimed zero association distance fails: the
source returns a Cramér's V of 0, so the association distance
1 - cramers_v used in the categorical column score is 1, not 0. -/
theorem claim_C1_counterexample :
    detect_column_type isNumericString [some "A", some "A", some "A"] = ColumnType.categorical
    ∧ cramersVSq [some "A", some "A", some "A"] [some "B", some "C", some "D"] = 0
    ∧ (1 : ℝ) - Real.sqrt
        ((cramersVSq [some "A", some "A", some "A"] [some "B", some "C", some "D"] : ℚ) : ℝ)
      ≠ 0 := by
  refine ⟨by decide, by decide, ?_⟩
  have h : cramersVSq [some "A", some "A", some "A"] [some "B", some "C", some "D"] = 0 := by
    decide
  rw [h]
  push_cast
  rw [Real.sqrt_zero]
  norm_num

/-- C1 (amended): for every degenerate pair — either cleaned column empty,
sample size at most 1, or either truncated column constant (which is also
what a one-row or one-column contingency table means) — cramers_v returns
an association of 0, so the association distance 1 - cramers_v used in the
categorical column score is 1 (maximal distance), not 0; a non-positive
corrected denominator is not such a case: there the source falls back to
the uncorrected coefficient instead of returning 0. -/
theorem claim_C1 {α : Type} [DecidableEq α] (x y : List (Option α))
    (h : dropna x = [] ∨ dropna y = []
      ∨ min (dropna x).length (dropna y).length ≤ 1
      ∨ ((dropna x).take (min (dropna x).length (dropna y).length)).dedup.length = 1
      ∨ ((dropna y).take (min (dropna x).length (dropna y).length)).dedup.length = 1) :
    cramersVSq x y = 0
    ∧ (1 : ℝ) - Real.sqrt ((cramersVSq x y : ℚ) : ℝ) = 1 := by
  have h0 : cramersVSq x y = 0 := by
    unfold cramersVSq
    dsimp only
    by_cases he : dropna x = [] ∨ dropna y = []
    · rw [if_pos ?hg]
      case hg =>
        rcases he with he | he
        · exact Or.inl (dropnaIdx_eq_nil.mpr he)
        · exact Or.inr (dropnaIdx_eq_nil.mpr he)
    · rw [if_neg ?hg]
      case hg =>
        intro hc
        rcases hc with hc | hc
        · exact he (Or.inl (dropnaIdx_eq_nil.mp hc))
        · exact he (Or.inr (dropnaIdx_eq_nil.mp hc))
      push_neg at he
      have hmins : min (dropnaIdx x).length (dropnaIdx y).length
          = min (dropna x).length (dropna y).length := by
        rw [dropnaIdx_length, dropnaIdx_length]
      have hxsnd :
          ((dropnaIdx x).take (min (dropnaIdx x).length (dropnaIdx y).length)).map Prod.snd
          = (dropna x).take (min (dropna x).length (dropna y).length) := by
        rw [List.map_take, dropnaIdx_snd, hmins]
      have hysnd :
          ((dropnaIdx y).take (min (dropnaIdx x).length (dropnaIdx y).length)).map Prod.snd
          = (dropna y).take (min (dropna x).length (dropna y).length) := by
        rw [List.map_take, dropnaIdx_snd, hmins]
      have hguard :
          ((dropna x).take (min (dropna x).length (dropna y).length)).dedup.length = 1
          ∨ ((dropna y).take (min (dropna x).length (dropna y).length)).dedup.length = 1 := by
        rcases h with h | h | h | h | h
        · exact absurd h he.1
        · exact absurd h he.2
        · have hx1 : 0 < (dropna x).length := List.length_pos.mpr he.1
          have hy1 : 0 < (dropna y).length := List.length_pos.mpr he.2
          have hm1 : min (dropna x).length (dropna y).length = 1 := by omega
          have hlx : ((dropna x).take (min (dropna x).length (dropna y).length)).length
              = 1 := by
            rw [List.length_take]
            omega
          obtain ⟨a, ha⟩ := List.length_eq_one.mp hlx
          left
          rw [ha]
          rfl
        · exact Or.inl h
        · exact Or.inr h
      rw [if_pos (show _ ∨ _ by rw [hxsnd, hysnd]; exact hguard)]
  refine ⟨h0, ?_⟩
  rw [h0]
  push_cast
  rw [Real.sqrt_zero]
  norm_num

/-- Witness for C1 at a concrete constant original column. -/
theorem claim_C1_witness :
    (dropna [some "A", some "A", some "A"] = []
      ∨ dropna [some "B", some "B", some "C"] = []
      ∨ min (dropna [some "A", some "A", some "A"]).length
          (dropna [some "B", some "B", some "C"]).length ≤ 1
      ∨ ((dropna [some "A", some "A", some "A"]).take
          (min (dropna [some "A", some "A", some "A"]).length
            (dropna [some "B", some "B", some "C"]).length)).dedup.length = 1
      ∨ ((dropna [some "B", some "B", some "C"]).take
          (min (dropna [some "A", some "A", some "A"]).length
            (dropna [some "B", some "B", some "C"]).length)).dedup.length = 1)
    ∧ (cramersVSq [some "A", some "A", some "A"] [some "B", some "B", some "C"] = 0
      ∧ (1 : ℝ) - Real.sqrt
          ((cramersVSq [some "A", some "A", some "A"] [some "B", some "B", some "C"] : ℚ) : ℝ)
        = 1) :=
  ⟨by decide,
   claim_C1 [some "A", some "A", some "A"] [some "B", some "B", some "C"] (by decide)⟩

/-! Lemmas for the self-comparison of a categorical column (claim C6): the
contingency table of (t, t) is diagonal, and its chi-square statistic is
(k - 1) * n for k distinct values over n observations. -/

theorem zip_self {α : Type} (t : List α) : t.zip t = t.map (fun a => (a, a)) := by
  induction t with
  | nil => rfl
  | cons a s ih => simp [List.zip_cons_cons, ih]

theorem count_map_pair {α : Type} [DecidableEq α] (t : List α) (v w : α) :
    (t.map (fun a => (a, a))).count (v, w) = if v = w then t.count v else 0 := by
  induction t with
  | nil => simp
  | cons a s ih =>
      simp only [List.map_cons, List.count_cons, ih, beq_iff_eq, Prod.mk.injEq]
      by_cases hvw : v = w
      · subst hvw
        by_cases hv : v = a
        · subst hv
          simp
        · simp [hv]
      · by_cases hv : v = a <;> by_cases hw : w = a
        · exact absurd (hv.trans hw.symm) hvw
        · simp_all
        · simp_all
          exact fun h => hv h.symm
        · simp_all

theorem diag_fst {α : Type} (t : List α) :
    (t.map (fun a => (a, a))).map Prod.fst = t := by
  induction t with
  | nil => rfl
  | cons a s ih => simp only [List.map_cons, ih]

theorem diag_snd {α : Type} (t : List α) :
    (t.map (fun a => (a, a))).map Prod.snd = t := by
  induction t with
  | nil => rfl
  | cons a s ih => simp only [List.map_cons, ih]

theorem obsQ_self {α : Type} [DecidableEq α] (t : List α) (v w : α) :
    obsQ (t.map (fun a => (a, a))) v w = if v = w then (t.count v : ℚ) else 0 := by
  unfold obsQ
  rw [count_map_pair]
  split_ifs <;> simp

theorem dedup_toFinset {α : Type} [DecidableEq α] (t : List α) :
    t.dedup.toFinset = t.toFinset := by
  ext a
  simp

theorem sum_dedup_toFinset {α : Type} [DecidableEq α] (t : List α) (f : α → ℚ) :
    (t.dedup.map f).sum = ∑ a ∈ t.toFinset, f a := by
  rw [← List.sum_toFinset f (List.nodup_dedup t), dedup_toFinset]

theorem sum_count_cast {α : Type} [DecidableEq α] (t : List α) :
    (∑ a ∈ t.toFinset, (t.count a : ℚ)) = (t.length : ℚ) := by
  rw [← Nat.cast_sum, List.sum_toFinset_count_eq_length]

theorem dedup_card {α : Type} [DecidableEq α] (t : List α) :
    t.toFinset.card = t.dedup.length := by
  rw [← dedup_toFinset, List.toFinset_card_of_nodup (List.nodup_dedup t)]

theorem rowTQ_self {α : Type} [DecidableEq α] (t : List α) (v : α) :
    rowTQ (t.map (fun a => (a, a))) v = if v ∈ t then (t.count v : ℚ) else 0 := by
  unfold rowTQ
  rw [diag_snd]
  simp only [obsQ_self]
  rw [sum_dedup_toFinset, Finset.sum_ite_eq]
  simp only [List.mem_toFinset]

theorem colTQ_self {α : Type} [DecidableEq α] (t : List α) (w : α) :
    colTQ (t.map (fun a => (a, a))) w = if w ∈ t then (t.count w : ℚ) else 0 := by
  unfold colTQ
  rw [diag_fst]
  simp only [obsQ_self]
  rw [sum_dedup_toFinset]
  have hcongr : ∀ v ∈ t.toFinset,
      (if v = w then (t.count v : ℚ) else 0) = (if v = w then (t.count w : ℚ) else 0) := by
    intro v _
    split_ifs with hv
    · rw [hv]
    · rfl
  rw [Finset.sum_congr rfl hcongr, Finset.sum_ite_eq']
  simp only [List.mem_toFinset]

theorem tableNQ_self {α : Type} [DecidableEq α] (t : List α) :
    tableNQ (t.map (fun a => (a, a))) = (t.length : ℚ) := by
  unfold tableNQ
  rw [diag_fst]
  simp only [rowTQ_self]
  rw [sum_dedup_toFinset]
  rw [Finset.sum_congr rfl (fun v hv => if_pos (List.mem_toFinset.mp hv))]
  exact sum_count_cast t

theorem chi2Q_self {α : Type} [DecidableEq α] (t : List α) (h3 : 3 ≤ t.dedup.length) :
    chi2Q (t.map (fun a => (a, a))) = ((t.dedup.length : ℚ) - 1) * (t.length : ℚ) := by
  have hlen : t.dedup.length ≤ t.length := (List.dedup_sublist t).length_le
  have hN0 : (0 : ℚ) < (t.length : ℚ) := by
    have : 0 < t.length := by omega
    exact_mod_cast this
  have hNne : (t.length : ℚ) ≠ 0 := ne_of_gt hN0
  unfold chi2Q
  dsimp only
  rw [diag_fst]
  simp only [diag_snd]
  have hdof : ((t.dedup.length - 1) * (t.dedup.length - 1) = 1) = False := by
    apply eq_false
    intro hc
    have h2 : 2 ≤ t.dedup.length - 1 := by omega
    have h4 : 4 ≤ (t.dedup.length - 1) * (t.dedup.length - 1) := Nat.mul_le_mul h2 h2
    omega
  simp only [hdof, if_false]
  rw [sum_dedup_toFinset]
  have step1 : ∀ v ∈ t.toFinset,
      (t.dedup.map (fun w =>
        |obsQ (t.map (fun a => (a, a))) v w
            - rowTQ (t.map (fun a => (a, a))) v * colTQ (t.map (fun a => (a, a))) w
              / tableNQ (t.map (fun a => (a, a)))| ^ 2 /
          (rowTQ (t.map (fun a => (a, a))) v * colTQ (t.map (fun a => (a, a))) w
            / tableNQ (t.map (fun a => (a, a)))))).sum
      = ∑ w ∈ t.toFinset,
          ((if v = w then ((t.length : ℚ)) else 0)
            - 2 * (if v = w then (t.count v : ℚ) else 0)
            + (t.count v : ℚ) * (t.count w : ℚ) / (t.length : ℚ)) := by
    intro v hv
    have hvt : v ∈ t := List.mem_toFinset.mp hv
    have hcv : (0 : ℚ) < (t.count v : ℚ) := by
      exact_mod_cast List.count_pos_iff.mpr hvt
    rw [sum_dedup_toFinset]
    refine Finset.sum_congr rfl ?_
    intro w hw
    have hwt : w ∈ t := List.mem_toFinset.mp hw
    have hcw : (0 : ℚ) < (t.count w : ℚ) := by
      exact_mod_cast List.count_pos_iff.mpr hwt
    rw [obsQ_self, rowTQ_self, colTQ_self, tableNQ_self, if_pos hvt, if_pos hwt]
    split_ifs with hvw
    · subst hvw
      rw [sq_abs]
      field_simp
      ring
    · rw [sq_abs]
      field_simp
      ring
  rw [Finset.sum_congr rfl step1]
  have step2 : ∀ v ∈ t.toFinset,
      (∑ w ∈ t.toFinset,
          ((if v = w then ((t.length : ℚ)) else 0)
            - 2 * (if v = w then (t.count v : ℚ) else 0)
            + (t.count v : ℚ) * (t.count w : ℚ) / (t.length : ℚ)))
      = (t.length : ℚ) - 2 * (t.count v : ℚ) + (t.count v : ℚ) := by
    intro v hv
    rw [Finset.sum_add_distrib, Finset.sum_sub_distrib]
    rw [Finset.sum_ite_eq, if_pos hv]
    rw [← Finset.mul_sum, Finset.sum_ite_eq, if_pos hv]
    have h3rd : (∑ w ∈ t.toFinset, (t.count v : ℚ) * (t.count w : ℚ) / (t.length : ℚ))
        = (t.count v : ℚ) := by
      rw [← Finset.sum_div, ← Finset.mul_sum, sum_count_cast, mul_div_cancel_right₀ _ hNne]
    rw [h3rd]
  rw [Finset.sum_congr rfl step2]
  rw [Finset.sum_add_distrib, Finset.sum_sub_distrib, Finset.sum_const]
  rw [← Finset.mul_sum, sum_count_cast]
  rw [nsmul_eq_mul, dedup_card]
  ring

theorem cramersVSqCore_self {α : Type} [DecidableEq α] (t : List α)
    (h3 : 3 ≤ t.dedup.length) : cramersVSqCore (t.map (fun a => (a, a))) = 1 := by
  have hlen : t.dedup.length ≤ t.length := (List.dedup_sublist t).length_le
  have hN0 : (0 : ℚ) < (t.length : ℚ) := by
    have : 0 < t.length := by omega
    exact_mod_cast this
  have hNne : (t.length : ℚ) ≠ 0 := ne_of_gt hN0
  have hK3 : (3 : ℚ) ≤ (t.dedup.length : ℚ) := by exact_mod_cast h3
  have hN3 : (3 : ℚ) ≤ (t.length : ℚ) := by
    have : 3 ≤ t.length := by omega
    exact_mod_cast this
  unfold cramersVSqCore
  dsimp only
  rw [diag_fst, diag_snd]
  rw [if_neg (by
    have h9 : 0 < t.dedup.length * t.dedup.length := Nat.mul_pos (by omega) (by omega)
    omega)]
  rw [tableNQ_self, chi2Q_self t h3]
  rw [if_neg (by
    intro hc
    linarith)]
  rw [if_neg (by
    intro hc
    rcases hc with hc | hc <;> omega)]
  rw [min_self, min_self, mul_div_cancel_right₀ _ hNne]
  set K := (t.dedup.length : ℚ) with hKdef
  set N := (t.length : ℚ) with hNdef
  have hKne : K - 1 ≠ 0 := by
    intro hc
    linarith
  split_ifs with hd hf
  · exfalso
    linarith
  · rw [div_self hKne]
    norm_num
  · have hXD : K - 1 - (K - 1) * (K - 1) / (N - 1) = K - (K - 1) ^ 2 / (N - 1) - 1 := by
      ring
    rw [hXD]
    have hpos : (0 : ℚ) < K - (K - 1) ^ 2 / (N - 1) - 1 := not_le.mp hd
    rw [max_eq_right hpos.le, div_self hpos.ne']
    norm_num

/-- C6 counterexample: a non-empty categorical column (here the constant
column ["A", "A", "A"], distinct ratio 1/3 so it classifies categorical)
compared against itself whose association distance is not close to 0: the
constant-column guard makes cramers_v return 0, so the association
distance 1 - cramers_v is its maximal value 1. -/
theorem claim_C6_counterexample :
    dropna [some "A", some "A", some "A"] ≠ []
    ∧ detect_column_type isNumericString [some "A", some "A", some "A"]
        = ColumnType.categorical
    ∧ cramersVSq [some "A", some "A", some "A"] [some "A", some "A", some "A"] = 0
    ∧ (1 : ℝ) - Real.sqrt
        ((cramersVSq [some "A", some "A", some "A"] [some "A", some "A", some "A"] : ℚ) : ℝ)
      = 1 := by
  refine ⟨by decide, by decide, by decide, ?_⟩
  have h : cramersVSq [some "A", some "A", some "A"] [some "A", some "A", some "A"] = 0 := by
    decide
  rw [h]
  push_cast
  rw [Real.sqrt_zero]
  norm_num

/-- C6 (amended): for every non-empty categorical column x compared
against itself the set-overlap (Jaccard) distance is exactly 0, and the
association distance is exactly 0 whenever x has at least three distinct
non-missing values; for constant columns the degenerate guard returns
association 0 (distance 1), and two-valued columns go through the Yates
continuity correction, which keeps the distance away from 0. -/
theorem claim_C6 {α : Type} [DecidableEq α] (x : List (Option α)) (h : dropna x ≠ []) :
    jaccard_distance x x = 0
    ∧ (3 ≤ (dropna x).dedup.length →
        cramersVSq x x = 1
        ∧ (1 : ℝ) - Real.sqrt ((cramersVSq x x : ℚ) : ℝ) = 0) := by
  constructor
  · unfold jaccard_distance
    dsimp only
    have hsx : (dropna x).dedup ≠ [] := by
      intro hc
      exact h ((List.dedup_eq_nil _).mp hc)
    rw [if_neg (fun hc => hsx hc.1)]
    have hi : (dropna x).dedup.countP (fun a => decide (a ∈ (dropna x).dedup))
        = (dropna x).dedup.length := by
      rw [List.countP_eq_length]
      intro a ha
      simpa using ha
    have hj : (dropna x).dedup.countP (fun a => decide (a ∉ (dropna x).dedup)) = 0 := by
      rw [List.countP_eq_zero]
      intro a ha
      simpa using ha
    rw [hi, hj, Nat.add_zero]
    have hlp : 0 < (dropna x).dedup.length := List.length_pos.mpr hsx
    rw [if_pos hlp]
    have hlne : ((dropna x).dedup.length : ℚ) ≠ 0 := by
      exact_mod_cast Nat.pos_iff_ne_zero.mp hlp
    rw [div_self hlne]
    ring
  · intro h3
    have hv : cramersVSq x x = 1 := by
      rw [cramersVSq_eq_zip x x rfl]
      rw [if_neg (fun hc => h (hc.elim id id))]
      rw [if_neg (by
        intro hc
        rcases hc with hc | hc <;> omega)]
      rw [zip_self]
      exact cramersVSqCore_self (dropna x) h3
    refine ⟨hv, ?_⟩
    rw [hv]
    push_cast
    rw [Real.sqrt_one]
    norm_num

/-- Witness for C6 at a concrete three-valued column. -/
theorem claim_C6_witness :
    dropna [some "a", some "b", some "c"] ≠ []
    ∧ 3 ≤ (dropna [some "a", some "b", some "c"]).dedup.length
    ∧ jaccard_distance [some "a", some "b", some "c"] [some "a", some "b", some "c"] = 0
    ∧ cramersVSq [some "a", some "b", some "c"] [some "a", some "b", some "c"] = 1
    ∧ (1 : ℝ) - Real.sqrt
        ((cramersVSq [some "a", some "b", some "c"] [some "a", some "b", some "c"] : ℚ) : ℝ)
      = 0 := by
  have hc := claim_C6 [some "a", some "b", some "c"] (by decide)
  have h2 := hc.2 (by decide)
  exact ⟨by decide, by decide, hc.1, h2.1, h2.2⟩

end Anonify
